import Mathlib

set_option maxRecDepth 2000

/-!
Verification development for the Ethereum deposit-clustering tool
(src/etherscan_deposit_clustering.py).

The Python program is shallowly embedded as pure Lean functions.  The
network (Etherscan explorer API) is modelled as an oracle giving, for every
(address, action, page, attempt) quadruple, either a JSON response
(`ApiResponse`) or `none` for a transport-level failure.  Wei amounts are
integers; the Python float division by 10^18 is modelled with exact
rational arithmetic.  Python dicts are insertion-ordered association
lists, and `functools.lru_cache(maxsize=2048)` on `is_contract` is
modelled by an explicit LRU state (most recently used first).
-/

/-- `str.lower()` on the ASCII strings the program handles (hex addresses):
mapping `Char.toLower` over the characters. -/
def str_lower (s : String) : String := String.mk (s.data.map Char.toLower)

/-- A transaction object as consumed by the program: the fields
`from`, `to`, `value`, `timeStamp` of an Etherscan transaction dict
(named after the local variables `tx_from` / `tx_to` used in the source). -/
structure Tx where
  tx_from : String
  tx_to : String
  value : Nat
  timeStamp : Nat
deriving DecidableEq

/-- A JSON response of the transaction-listing endpoint:
`status`, `message`, and the `result` list. -/
structure ApiResponse where
  status : String
  message : String
  result : List Tx
deriving DecidableEq

/-- `MAX_RESULTS = 1000` (page size). -/
def MAX_RESULTS : Nat := 1000

/-- Oracle for the explorer API: address, action, page, attempt number
(0-based retry attempt) to response; `none` is a transport failure
(exception in requests.get, timeout, or non-dict JSON). -/
abbrev EtherscanApi := String → String → Nat → Nat → Option ApiResponse

/-- `fetch_etherscan_data` on one concrete response: a transport failure or a
response whose status is not "1" and whose message is not
"No transactions found" raises (here: `Except.error`); otherwise the
response is returned. -/
def fetch_etherscan_data (resp : Option ApiResponse) : Except String ApiResponse :=
  match resp with
  | none => Except.error "request failed"
  | some data =>
    if data.status ≠ "1" ∧ data.message ≠ "No transactions found" then
      Except.error data.message
    else
      Except.ok data

/-- The tenacity retry decorator `stop_after_attempt(3)`: up to three
attempts of `fetch_etherscan_data`; the last error is re-raised. -/
def fetch_with_retry (attempt : Nat → Option ApiResponse) : Except String ApiResponse :=
  match fetch_etherscan_data (attempt 0) with
  | Except.ok data => Except.ok data
  | Except.error _ =>
    match fetch_etherscan_data (attempt 1) with
    | Except.ok data => Except.ok data
    | Except.error _ => fetch_etherscan_data (attempt 2)

/-- The pagination loop of `get_all_transactions`.  Besides the accumulated
transactions (`all_txs` in the source) it also records the list of page
numbers for which a request was issued, so that statements about issued
requests can be made.  The loop breaks before fetching once
`page * MAX_RESULTS > 10000`; a page whose fetch fails after the retries,
an empty result, or a short page terminate the loop.  The structural
`fuel` argument only bounds the recursion: page numbers above 10 hit the
ceiling break, so with the top-level fuel 11 the 0-fuel clause is only
reached for pages where the ceiling break fires anyway and returns the
same accumulators (`get_all_transactions_loop_fuel` below makes this
irrelevance precise). -/
def get_all_transactions_loop (api : EtherscanApi) (address action : String) :
    Nat → Nat → List Tx → List Nat → List Tx × List Nat
  | 0, _, all_txs, pages => (all_txs, pages)
  | fuel + 1, page, all_txs, pages =>
    if 10000 < page * MAX_RESULTS then (all_txs, pages)
    else
      match fetch_with_retry (fun attempt => api address action page attempt) with
      | Except.error _ => (all_txs, pages ++ [page])
      | Except.ok data =>
        if data.result = [] then (all_txs, pages ++ [page])
        else if data.result.length < MAX_RESULTS then
          (all_txs ++ data.result, pages ++ [page])
        else
          get_all_transactions_loop api address action fuel (page + 1)
            (all_txs ++ data.result) (pages ++ [page])

/-- `get_all_transactions(address, action)`: complete paginated history. -/
def get_all_transactions (api : EtherscanApi) (address action : String) : List Tx :=
  (get_all_transactions_loop api address action 11 1 [] []).1

/-- The page numbers for which `get_all_transactions` issued a request. -/
def pages_requested (api : EtherscanApi) (address action : String) : List Nat :=
  (get_all_transactions_loop api address action 11 1 [] []).2

/-- A per-sender aggregate: `{'count': ..., 'total_eth': ...}`. -/
structure SenderStats where
  count : Nat
  total_eth : ℚ
deriving DecidableEq

/-- A cluster as returned by `analyze_deposit`. -/
structure Cluster where
  deposit : String
  exchange : String
  related_users : List String
  user_stats : List (String × SenderStats)
  cluster_size : Nat
deriving DecidableEq

/-- `int(tx.get('value', 0)) / 10**18` with exact rational arithmetic. -/
def wei_to_eth (value : Nat) : ℚ := (value : ℚ) / 10 ^ 18

/-- One sender_stats dict update: create `{'count': 0, 'total_eth': 0.0}` on
first sight (a Python dict appends new keys at the end), then
`count += 1` and `total_eth += value_eth`. -/
def sender_stats_update (value_eth : ℚ) :
    List (String × SenderStats) → String → List (String × SenderStats)
  | [], tx_from => [(tx_from, { count := 1, total_eth := value_eth })]
  | (k, s) :: rest, tx_from =>
    if k = tx_from then
      (k, { count := s.count + 1, total_eth := s.total_eth + value_eth }) :: rest
    else
      (k, s) :: sender_stats_update value_eth rest tx_from

/-- The body of the sender-collection loop of `analyze_deposit`: only real
deposits from non-exchanges and not from the deposit itself count. -/
def sender_stats_step (deposit : String) (exchange_set : List String)
    (stats : List (String × SenderStats)) (tx : Tx) : List (String × SenderStats) :=
  let tx_from := str_lower tx.tx_from
  let tx_to := str_lower tx.tx_to
  let value_eth := wei_to_eth tx.value
  if tx_to = deposit ∧ tx_from ∉ exchange_set ∧ tx_from ≠ deposit then
    sender_stats_update value_eth stats tx_from
  else
    stats

/-- The sender_stats dict after scanning all transactions. -/
def sender_stats_of (deposit : String) (exchange_set : List String) (txs : List Tx) :
    List (String × SenderStats) :=
  txs.foldl (sender_stats_step deposit exchange_set) []

/-- The forwarding scan of `analyze_deposit`: the first transaction whose
sender equals the deposit and whose recipient is in the exchange set;
its recipient is recorded. -/
def forwarded_of (deposit : String) (exchange_set : List String) (txs : List Tx) :
    Option String :=
  (txs.find? fun tx =>
    decide (str_lower tx.tx_from = deposit ∧ str_lower tx.tx_to ∈ exchange_set)).map
    (fun tx => str_lower tx.tx_to)

/-- Insert `a` in front of the first element `b` with `le a b`; auxiliary
step of the stable sort below. -/
def stable_insert (le : α → α → Bool) (a : α) : List α → List α
  | [] => [a]
  | b :: l => if le a b then a :: b :: l else b :: stable_insert le a l

/-- A stable sort with respect to the boolean preorder `le` (`le a b`:
`a` may come before `b`).  Python's `sorted` is specified as a stable
sort; for a total preorder every stable sort returns the same list, so
stable insertion sort models `sorted` exactly. -/
def stable_sort (le : α → α → Bool) : List α → List α
  | [] => []
  | a :: l => stable_insert le a (stable_sort le l)

/-- `sorted(sender_stats.items(), key=lambda x: x[1]['count'], reverse=True)`:
a stable sort, descending by count. -/
def sort_senders (stats : List (String × SenderStats)) : List (String × SenderStats) :=
  stable_sort (fun a b => decide (b.2.count ≤ a.2.count)) stats

/-- `analyze_deposit(deposit, exchange_set, sender_threshold)`.  The contract
classifier is an oracle `is_contract : String → Bool` (its memoized value),
and transaction fetching goes through the API oracle exactly as in
`get_all_transactions(deposit, 'txlist')` / `(deposit, 'txlistinternal')`.
The final Python condition `if forwarded_to_exchange and len(sender_stats) > 1`
tests string truthiness, so an empty-string exchange would not count. -/
def analyze_deposit (is_contract : String → Bool) (api : EtherscanApi)
    (deposit : String) (exchange_set : List String) (sender_threshold : Nat) :
    Option Cluster :=
  if deposit ∉ exchange_set ∧ is_contract deposit then none
  else if deposit = "" then none
  else
    let normal_txs := get_all_transactions api deposit "txlist"
    let internal_txs := get_all_transactions api deposit "txlistinternal"
    let all_txs := normal_txs ++ internal_txs
    if 10000 ≤ all_txs.length then none
    else
      let sender_stats := sender_stats_of deposit exchange_set all_txs
      if sender_threshold < sender_stats.length then none
      else
        match forwarded_of deposit exchange_set all_txs with
        | none => none
        | some fwd =>
          if fwd ≠ "" ∧ 1 < sender_stats.length then
            some { deposit := deposit, exchange := fwd,
                   related_users := (sort_senders sender_stats).map Prod.fst,
                   user_stats := sender_stats, cluster_size := sender_stats.length }
          else none

/-- `sorted(clusters, key=lambda x: x['cluster_size'], reverse=True)`:
a stable sort, descending by cluster_size. -/
def sort_clusters (clusters : List Cluster) : List Cluster :=
  stable_sort (fun a b => decide (b.cluster_size ≤ a.cluster_size)) clusters

/-- The collection and ranking stage of `cluster_addresses`: the analyzer
results, in the order in which the submitted analyses complete, are
filtered for non-None and sorted by cluster_size descending. -/
def collect_clusters (results : List (Option Cluster)) : List Cluster :=
  sort_clusters (results.filterMap id)

/-- A funding source entry of `find_funding_sources`. -/
structure FundingSource where
  label : String
  count : Nat
  values : List ℚ
  timestamps : List Nat
  first_seen : Nat
  last_seen : Nat
deriving DecidableEq

/-- One funding_sources dict update: create the entry on first sight
(count 0, empty lists, first_seen = last_seen = timestamp), then
`count += 1`, append value and timestamp, and lower/raise
first_seen/last_seen. -/
def funding_update (label : String) (value_eth : ℚ) (timestamp : Nat) :
    List (String × FundingSource) → String → List (String × FundingSource)
  | [], tx_from =>
    [(tx_from, { label := label, count := 1, values := [value_eth],
                 timestamps := [timestamp], first_seen := timestamp,
                 last_seen := timestamp })]
  | (k, e) :: rest, tx_from =>
    if k = tx_from then
      (k, { e with
              count := e.count + 1,
              values := e.values ++ [value_eth],
              timestamps := e.timestamps ++ [timestamp],
              first_seen := min e.first_seen timestamp,
              last_seen := max e.last_seen timestamp }) :: rest
    else
      (k, e) :: funding_update label value_eth timestamp rest tx_from

/-- The body of the transaction loop of `find_funding_sources`. -/
def funding_step (target_address : String) (exchange_set : List String)
    (exchange_labels : Option (List (String × String)))
    (fs : List (String × FundingSource)) (tx : Tx) : List (String × FundingSource) :=
  let tx_from := str_lower tx.tx_from
  let tx_to := str_lower tx.tx_to
  if tx_to = target_address ∧ tx_from ∈ exchange_set then
    let label :=
      match exchange_labels with
      | none => tx_from
      | some labels =>
        ((labels.find? (fun p => decide (p.1 = tx_from))).map Prod.snd).getD tx_from
    funding_update label (wei_to_eth tx.value) tx.timeStamp fs tx_from
  else
    fs

/-- `find_funding_sources(target_address, exchange_addresses, exchange_labels)`. -/
def find_funding_sources (api : EtherscanApi) (target_address : String)
    (exchange_addresses : List String)
    (exchange_labels : Option (List (String × String))) :
    List (String × FundingSource) :=
  let target := str_lower target_address
  let exchange_set := exchange_addresses.map str_lower
  let normal_txs := get_all_transactions api target "txlist"
  let internal_txs := get_all_transactions api target "txlistinternal"
  let all_txs := normal_txs ++ internal_txs
  all_txs.foldl (funding_step target exchange_set exchange_labels) []

/-- `lru_cache` capacity on `is_contract`: `maxsize=2048`. -/
def IS_CONTRACT_CACHE_SIZE : Nat := 2048

/-- One call of the memoized `is_contract`.  The cache is a most-recently-used
first association list.  `net` is the classification the un-memoized body
would compute by a network lookup.  Result: the returned Bool, the new
cache, and whether a network lookup was performed (a cache miss).  On a
hit the entry moves to the front; on a miss the new entry is inserted in
front and the least recently used entry beyond `maxsize` is evicted. -/
def lru_call (net : String → Bool) (maxsize : Nat) (cache : List (String × Bool))
    (address : String) : Bool × List (String × Bool) × Bool :=
  match cache.find? (fun e => e.1 == address) with
  | some e => (e.2, (address, e.2) :: cache.eraseP (fun e => e.1 == address), false)
  | none => (net address, ((address, net address) :: cache).take maxsize, true)

/-- A sequence of calls of the memoized `is_contract`, returning the
trace (returned value, network-lookup flag) and the final cache. -/
def lru_calls (net : String → Bool) (maxsize : Nat) :
    List (String × Bool) → List String → List (Bool × Bool) × List (String × Bool)
  | cache, [] => ([], cache)
  | cache, address :: rest =>
    let r := lru_call net maxsize cache address
    let t := lru_calls net maxsize r.2.1 rest
    ((r.1, r.2.2) :: t.1, t.2)

/-- The calls to `is_contract` made during one analysis session, starting
from the empty cache, with the source's `maxsize=2048`. -/
def is_contract_calls (net : String → Bool) (queries : List String) :
    List (Bool × Bool) × List (String × Bool) :=
  lru_calls net IS_CONTRACT_CACHE_SIZE [] queries

/-- Reference model of unbounded memoization: result of every call is
`net address`, and a network lookup happens exactly at the first
occurrence of an address. -/
def memo_ref (net : String → Bool) : List String → List String → List (Bool × Bool)
  | _, [] => []
  | seen, address :: rest =>
    (net address, !seen.contains address) :: memo_ref net (address :: seen) rest

/-! ### Concrete inputs used by individual claims -/

/-- Transactions of the spec scenario:
A pays D 1 ETH at t1, B pays D 2 ETH at t2, D pays the exchange 2.9 ETH at t3
(A appears in mixed case to exercise lowercasing). -/
def c3Txs : List Tx :=
  [⟨"0xA", "0xD", 10 ^ 18, 1⟩, ⟨"0xb", "0xd", 2 * 10 ^ 18, 2⟩,
   ⟨"0xd", "0xe", 29 * 10 ^ 17, 3⟩]

/-- API oracle for the scenario: one short page of normal transactions,
a "No transactions found" response for everything else. -/
def c3Api : EtherscanApi := fun _ action page _ =>
  if action = "txlist" ∧ page = 1 then some ⟨"1", "OK", c3Txs⟩
  else some ⟨"0", "No transactions found", []⟩

/-- An arbitrary transaction used to fill synthetic pages. -/
def pageTx : Tx := ⟨"0xa", "0xb", 0, 0⟩

/-- Synthetic API for the pagination scenario: pages 1–9 are full
(1000 items), page 10 has `k` items. -/
def c1Api (k : Nat) : EtherscanApi := fun _ _ page _ =>
  some ⟨"1", "OK", if page ≤ 9 then List.replicate MAX_RESULTS pageTx
                   else List.replicate k pageTx⟩

/-- An API that always fails at the transport level (every attempt). -/
def failApi : EtherscanApi := fun _ _ _ _ => none

/-- API for the graceful-degradation scenario of the fetcher: page 1 is full,
page 2 is full, page 3 fails on all three attempts. -/
def c7Api : EtherscanApi := fun _ _ page _ =>
  if page ≤ 2 then some ⟨"1", "OK", List.replicate MAX_RESULTS pageTx⟩ else none

/-- Transactions for the forwarding-order counterexample: the deposit D
forwards to exchange 0xex2 in a *normal* transaction at time 100, and to
exchange 0xex1 in an *internal* transaction at the earlier time 50. -/
def c4NormalTxs : List Tx :=
  [⟨"0xa", "0xd", 10 ^ 18, 10⟩, ⟨"0xb", "0xd", 10 ^ 18, 20⟩,
   ⟨"0xd", "0xex2", 10 ^ 18, 100⟩]

/-- The internal transaction history for the forwarding-order counterexample. -/
def c4InternalTxs : List Tx := [⟨"0xd", "0xex1", 10 ^ 18, 50⟩]

/-- API oracle for the forwarding-order counterexample. -/
def c4Api : EtherscanApi := fun _ action page _ =>
  if page = 1 then
    (if action = "txlist" then some ⟨"1", "OK", c4NormalTxs⟩
     else some ⟨"1", "OK", c4InternalTxs⟩)
  else some ⟨"0", "No transactions found", []⟩

/-- The combined history `normal_txs + internal_txs` of the
forwarding-order counterexample, in the scan order of `analyze_deposit`. -/
def c4AllTxs : List Tx := c4NormalTxs ++ c4InternalTxs

/-- The cluster produced in the C3 scenario. -/
def c3Cluster : Cluster :=
  { deposit := "0xd", exchange := "0xe", related_users := ["0xa", "0xb"],
    user_stats := [("0xa", ⟨1, 1⟩), ("0xb", ⟨1, 2⟩)], cluster_size := 2 }

/-- The cluster produced in the C4 counterexample scenario: the recorded
exchange is 0xex2 (the normal-transaction forward at time 100), although
the internal forward to 0xex1 happened earlier (time 50). -/
def c4Cluster : Cluster :=
  { deposit := "0xd", exchange := "0xex2", related_users := ["0xa", "0xb"],
    user_stats := [("0xa", ⟨1, 1⟩), ("0xb", ⟨1, 1⟩)], cluster_size := 2 }

/-- A cluster with the alphabetically smaller deposit address. -/
def c5a : Cluster :=
  { deposit := "0xaaa", exchange := "0xe1", related_users := ["0xu1", "0xu2"],
    user_stats := [("0xu1", ⟨1, 1⟩), ("0xu2", ⟨1, 1⟩)], cluster_size := 2 }

/-- A cluster with the same size but alphabetically larger deposit address. -/
def c5b : Cluster :=
  { deposit := "0xbbb", exchange := "0xe2", related_users := ["0xu3", "0xu4"],
    user_stats := [("0xu3", ⟨1, 1⟩), ("0xu4", ⟨1, 1⟩)], cluster_size := 2 }

/-- Pairwise-distinct addresses: the `i`-th address is `i+1` letters long,
so the map is injective. -/
def c6Addr (i : Nat) : String := String.mk (List.replicate (i + 1) 'a')

/-- 2049 pairwise-distinct addresses: one more than the cache capacity. -/
def c6Queries : List String := (List.range (IS_CONTRACT_CACHE_SIZE + 1)).map c6Addr

/-- A network classification oracle (value irrelevant to the claim). -/
def c6Net : String → Bool := fun _ => false

/-- Transactions for the funding-source aggregation witness: the exchange
0xex pays the target twice, another party once, and the target pays out once. -/
def c9Txs : List Tx :=
  [⟨"0xex", "0xt", 10 ^ 18, 100⟩, ⟨"0xq", "0xt", 10 ^ 18, 150⟩,
   ⟨"0xEX", "0xT", 3 * 10 ^ 18, 40⟩, ⟨"0xt", "0xq", 10 ^ 18, 200⟩]

/-- API oracle for the funding-source witness. -/
def c9Api : EtherscanApi := fun _ action page _ =>
  if action = "txlist" ∧ page = 1 then some ⟨"1", "OK", c9Txs⟩
  else some ⟨"0", "No transactions found", []⟩

/-- The transactions a FundingSource entry for sender `s` aggregates:
recipient is the target and the sender is the exchange address `s`. -/
def funding_matches (target : String) (exchange_set : List String) (s : String)
    (txs : List Tx) : List Tx :=
  txs.filter (fun tx => decide (str_lower tx.tx_to = target ∧
    str_lower tx.tx_from ∈ exchange_set ∧ str_lower tx.tx_from = s))

/-- What C9 claims of an aggregated entry over its matching transactions
`m`: count, ETH-converted values, timestamps, and first/last seen as the
minimum/maximum timestamp. -/
def FundingSpec (e : FundingSource) (m : List Tx) : Prop :=
  e.count = m.length ∧
  e.values = m.map (fun tx => wei_to_eth tx.value) ∧
  e.timestamps = m.map (fun tx => tx.timeStamp) ∧
  (m.map (fun tx => tx.timeStamp)).min? = some e.first_seen ∧
  (m.map (fun tx => tx.timeStamp)).max? = some e.last_seen

/-! ### Generic lemmas about the stable sort -/

theorem stable_insert_perm (le : α → α → Bool) (a : α) :
    ∀ l : List α, (stable_insert le a l).Perm (a :: l)
  | [] => List.Perm.refl _
  | b :: l => by
    simp only [stable_insert]
    cases h : le a b
    · simp only [Bool.false_eq_true, if_false]
      exact ((stable_insert_perm le a l).cons b).trans (List.Perm.swap a b l)
    · simp

theorem stable_sort_perm (le : α → α → Bool) :
    ∀ l : List α, (stable_sort le l).Perm l
  | [] => List.Perm.refl _
  | a :: l =>
    (stable_insert_perm le a (stable_sort le l)).trans ((stable_sort_perm le l).cons a)

theorem stable_insert_pairwise (le : α → α → Bool)
    (htrans : ∀ a b c, le a b → le b c → le a c)
    (htotal : ∀ a b, le a b || le b a) (a : α) :
    ∀ l : List α, l.Pairwise (fun x y => le x y) →
      (stable_insert le a l).Pairwise (fun x y => le x y) := by
  intro l
  induction l with
  | nil => intro _; simp [stable_insert]
  | cons b l ih =>
    intro hp
    rw [List.pairwise_cons] at hp
    obtain ⟨hb, hl⟩ := hp
    simp only [stable_insert]
    cases h : le a b
    · simp only [Bool.false_eq_true, if_false]
      rw [List.pairwise_cons]
      refine ⟨?_, ih hl⟩
      intro x hx
      rcases List.mem_cons.mp ((stable_insert_perm le a l).mem_iff.mp hx) with hxa | hxl
      · subst hxa
        have h2 := htotal x b
        rw [h] at h2
        simpa using h2
      · exact hb x hxl
    · simp only [if_true]
      rw [List.pairwise_cons]
      constructor
      · intro x hx
        rcases List.mem_cons.mp hx with hxb | hxl
        · subst hxb; exact h
        · exact htrans a b x h (hb x hxl)
      · exact List.Pairwise.cons hb hl

theorem stable_sort_pairwise (le : α → α → Bool)
    (htrans : ∀ a b c, le a b → le b c → le a c)
    (htotal : ∀ a b, le a b || le b a) :
    ∀ l : List α, (stable_sort le l).Pairwise (fun x y => le x y)
  | [] => by simp [stable_sort]
  | a :: l =>
    stable_insert_pairwise le htrans htotal a (stable_sort le l)
      (stable_sort_pairwise le htrans htotal l)

/-! ### C3: the concrete three-transaction scenario -/

/-- C3: for the history [A pays D 1 ETH at t1, B pays D 2 ETH at t2,
D pays the exchange 2.9 ETH at t3] with exchange_set = {0xe} and D not a
contract, `analyze_deposit` returns the cluster with cluster_size 2,
related_users exactly A and B, user_stats A = {count 1, total 1 ETH},
user_stats B = {count 1, total 2 ETH}, forwarding exchange 0xe. -/
theorem analyze_deposit_c3_scenario :
    analyze_deposit (fun _ => false) c3Api "0xd" ["0xe"] 1000 =
      some { deposit := "0xd", exchange := "0xe",
             related_users := ["0xa", "0xb"],
             user_stats := [("0xa", ⟨1, 1⟩), ("0xb", ⟨1, 2⟩)],
             cluster_size := 2 } := by
  with_unfolding_all rfl

/-! ### C8: an empty deposit address -/

/-- C8 (amended): `analyze_deposit` with an empty address returns `None`,
the same value every heuristic rejection returns; the caller cannot
distinguish the two outcomes. -/
theorem analyze_deposit_empty_none (is_contract : String → Bool)
    (api : EtherscanApi) (exchange_set : List String) (thr : Nat) :
    analyze_deposit is_contract api "" exchange_set thr = none := by
  unfold analyze_deposit
  split
  · rfl
  · simp

/-- C8 counterexample: the empty-address outcome coincides with the
ordinary contract-rejection outcome (`None` in both cases), so no
distinguishable explicit failure exists. -/
theorem analyze_deposit_empty_indistinguishable :
    analyze_deposit (fun _ => false) failApi "" ["0xe"] 1000 = none ∧
    analyze_deposit (fun _ => true) failApi "0xd" ["0xe"] 1000 = none ∧
    analyze_deposit (fun _ => false) failApi "" ["0xe"] 1000 =
      analyze_deposit (fun _ => true) failApi "0xd" ["0xe"] 1000 := by
  with_unfolding_all decide

/-! ### C5: ranking of clusters -/

/-- C5 counterexample: two clusters of equal size are returned in the
order in which the analyses completed, not by ascending deposit address;
with completion order [c5b, c5a] the output keeps c5b first although
c5a has the smaller deposit address. -/
theorem sort_clusters_tie_not_by_address :
    c5a.cluster_size = c5b.cluster_size ∧ c5a.deposit < c5b.deposit ∧
    collect_clusters [some c5a, some c5b] = [c5a, c5b] ∧
    collect_clusters [some c5b, some c5a] = [c5b, c5a] := by
  with_unfolding_all decide

/-- C5 (amended): the returned sequence is sorted descending by
cluster_size and is a permutation of the collected non-None results;
ties keep the order in which analyses completed (stable sort), so the
tie order is not determined by the deposit address. -/
theorem collect_clusters_sorted (results : List (Option Cluster)) :
    (collect_clusters results).Pairwise
      (fun a b => b.cluster_size ≤ a.cluster_size) ∧
    (collect_clusters results).Perm (results.filterMap id) := by
  constructor
  · have h := stable_sort_pairwise
      (fun a b : Cluster => decide (b.cluster_size ≤ a.cluster_size))
      (by intro a b c hab hbc
          simp only [decide_eq_true_eq] at hab hbc ⊢
          omega)
      (by intro a b
          simp only [Bool.or_eq_true, decide_eq_true_eq]
          omega)
      (results.filterMap id)
    exact h.imp (fun hxy => of_decide_eq_true hxy)
  · exact stable_sort_perm _ _

/-! ### C1 and C7: the transaction fetcher -/

/-- One full-page step of the pagination loop under the synthetic C1 API. -/
theorem c1_step (k fuel page : Nat) (h9 : page ≤ 9) (all : List Tx) (pages : List Nat) :
    get_all_transactions_loop (c1Api k) "0xd" "txlist" (fuel + 1) page all pages =
      get_all_transactions_loop (c1Api k) "0xd" "txlist" fuel (page + 1)
        (all ++ List.replicate MAX_RESULTS pageTx) (pages ++ [page]) := by
  have hg : ¬ (10000 < page * MAX_RESULTS) := by
    simp only [MAX_RESULTS]
    omega
  have hf : fetch_with_retry (fun attempt => c1Api k "0xd" "txlist" page attempt) =
      Except.ok ⟨"1", "OK", List.replicate MAX_RESULTS pageTx⟩ := by
    simp [fetch_with_retry, fetch_etherscan_data, c1Api, h9]
  rw [get_all_transactions_loop, if_neg hg, hf]
  have hM0 : ¬ (MAX_RESULTS = 0) := by simp [MAX_RESULTS]
  simp [hM0]

/-- Running the loop from any page ending exactly at page 10 under the
synthetic C1 API accumulates nine full pages and the short page. -/
theorem c1_run (k : Nat) (h0 : 0 < k) (hk : k < MAX_RESULTS) :
    ∀ n page, page + n = 10 → ∀ (all : List Tx) (pages : List Nat),
      get_all_transactions_loop (c1Api k) "0xd" "txlist" (n + 2) page all pages =
        (all ++ List.replicate (n * MAX_RESULTS + k) pageTx,
         pages ++ List.range' page (n + 1)) := by
  intro n
  induction n with
  | zero =>
    intro page hpage all pages
    have hp : page = 10 := by omega
    subst hp
    have hg : ¬ (10000 < 10 * MAX_RESULTS) := by
      simp only [MAX_RESULTS]
      omega
    have hf : fetch_with_retry (fun attempt => c1Api k "0xd" "txlist" 10 attempt) =
        Except.ok ⟨"1", "OK", List.replicate k pageTx⟩ := by
      simp [fetch_with_retry, fetch_etherscan_data, c1Api]
    rw [show (0 + 2 : Nat) = 1 + 1 from rfl, get_all_transactions_loop, if_neg hg, hf]
    have hne : ¬ (List.replicate k pageTx = []) := by
      simp only [List.replicate_eq_nil_iff]
      omega
    simp [hne, hk, List.range']
  | succ n ih =>
    intro page hpage all pages
    have h9 : page ≤ 9 := by omega
    have e1 : get_all_transactions_loop (c1Api k) "0xd" "txlist" (n + 1 + 2) page all pages =
        get_all_transactions_loop (c1Api k) "0xd" "txlist" (n + 2) (page + 1)
          (all ++ List.replicate MAX_RESULTS pageTx) (pages ++ [page]) :=
      c1_step k (n + 2) page h9 all pages
    rw [e1, ih (page + 1) (by omega)]
    refine congrArg₂ Prod.mk ?_ ?_
    · rw [List.append_assoc, ← List.replicate_add,
        (by ring : MAX_RESULTS + (n * MAX_RESULTS + k) = (n + 1) * MAX_RESULTS + k)]
    · rw [List.append_assoc]
      congr 1

/-- Fuel irrelevance: any fuel of at least `11 - page` gives the same
result, so the top-level fuel 11 is not an artificial bound. -/
theorem get_all_transactions_loop_fuel (api : EtherscanApi) (a act : String) :
    ∀ fuel fuel2 page (all : List Tx) (pages : List Nat),
      11 - page ≤ fuel → 11 - page ≤ fuel2 →
      get_all_transactions_loop api a act fuel page all pages =
        get_all_transactions_loop api a act fuel2 page all pages := by
  intro fuel
  induction fuel with
  | zero =>
    intro fuel2 page all pages h1 h2
    have hp : 10000 < page * MAX_RESULTS := by
      simp only [MAX_RESULTS]
      omega
    cases fuel2 with
    | zero => rfl
    | succ f2 =>
      conv_rhs => rw [get_all_transactions_loop]
      rw [if_pos hp]
      rfl
  | succ f ih =>
    intro fuel2 page all pages h1 h2
    cases fuel2 with
    | zero =>
      have hp : 10000 < page * MAX_RESULTS := by
        simp only [MAX_RESULTS]
        omega
      conv_lhs => rw [get_all_transactions_loop]
      rw [if_pos hp]
      rfl
    | succ f2 =>
      conv_lhs => rw [get_all_transactions_loop]
      conv_rhs => rw [get_all_transactions_loop]
      by_cases hg : 10000 < page * MAX_RESULTS
      · rw [if_pos hg, if_pos hg]
      · rw [if_neg hg, if_neg hg]
        have hpage : page ≤ 10 := by
          simp only [MAX_RESULTS] at hg
          omega
        cases hfetch : fetch_with_retry (fun attempt => api a act page attempt) with
        | error e => rfl
        | ok data =>
          by_cases hres : data.result = []
          · simp only [if_pos hres]
          · simp only [if_neg hres]
            by_cases hlen : data.result.length < MAX_RESULTS
            · simp only [if_pos hlen]
            · simp only [if_neg hlen]
              exact ih f2 (page + 1) _ _ (by omega) (by omega)

/-- Every page number the loop ever requests respects the hard window
ceiling `page * MAX_RESULTS ≤ 10000`. -/
theorem get_all_transactions_loop_pages (api : EtherscanApi) (a act : String) :
    ∀ fuel page (all : List Tx) (pages : List Nat),
      (∀ p ∈ pages, p * MAX_RESULTS ≤ 10000) →
      ∀ p ∈ (get_all_transactions_loop api a act fuel page all pages).2,
        p * MAX_RESULTS ≤ 10000 := by
  intro fuel
  induction fuel with
  | zero =>
    intro page all pages hinv p hp
    exact hinv p hp
  | succ f ih =>
    intro page all pages hinv p hp
    rw [get_all_transactions_loop] at hp
    by_cases hg : 10000 < page * MAX_RESULTS
    · rw [if_pos hg] at hp
      exact hinv p hp
    · rw [if_neg hg] at hp
      have hinv2 : ∀ q ∈ pages ++ [page], q * MAX_RESULTS ≤ 10000 := by
        intro q hq
        rcases List.mem_append.mp hq with h | h
        · exact hinv q h
        · rw [List.mem_singleton] at h
          subst h
          omega
      cases hfetch : fetch_with_retry (fun attempt => api a act page attempt) with
      | error e =>
        rw [hfetch] at hp
        exact hinv2 p hp
      | ok data =>
        rw [hfetch] at hp
        by_cases hres : data.result = []
        · simp only [if_pos hres] at hp
          exact hinv2 p hp
        · simp only [if_neg hres] at hp
          by_cases hlen : data.result.length < MAX_RESULTS
          · simp only [if_pos hlen] at hp
            exact hinv2 p hp
          · simp only [if_neg hlen] at hp
            exact ih (page + 1) _ _ hinv2 p hp

/-- C1: for every address and action, `get_all_transactions` never issues
a page request with `page * 1000 > 10000`; and under an API returning nine
full pages of 1000 items followed by a shorter page of `k` items it
returns exactly the concatenation of the fetched pages — `9000 + k`
transactions — requesting exactly pages 1–10 and no 11th page. -/
theorem get_all_transactions_pagination :
    (∀ (api : EtherscanApi) (address action : String) (p : Nat),
        p ∈ pages_requested api address action → p * MAX_RESULTS ≤ 10000) ∧
    (∀ k : Nat, 0 < k → k < MAX_RESULTS →
        (get_all_transactions (c1Api k) "0xd" "txlist").length = 9000 + k ∧
        pages_requested (c1Api k) "0xd" "txlist" =
          [1, 2, 3, 4, 5, 6, 7, 8, 9, 10]) := by
  constructor
  · intro api address action p hp
    exact get_all_transactions_loop_pages api address action 11 1 [] [] (by simp) p hp
  · intro k h0 hk
    have hrun : get_all_transactions_loop (c1Api k) "0xd" "txlist" 11 1 [] [] =
        ([] ++ List.replicate (9 * MAX_RESULTS + k) pageTx,
         [] ++ List.range' 1 (9 + 1)) :=
      c1_run k h0 hk 9 1 (by decide) [] []
    constructor
    · show (get_all_transactions_loop (c1Api k) "0xd" "txlist" 11 1 [] []).1.length =
        9000 + k
      rw [hrun]
      simp only [List.nil_append, List.length_replicate, MAX_RESULTS]
    · show (get_all_transactions_loop (c1Api k) "0xd" "txlist" 11 1 [] []).2 =
        [1, 2, 3, 4, 5, 6, 7, 8, 9, 10]
      rw [hrun]
      show ([] ++ List.range' 1 (9 + 1) : List Nat) = [1, 2, 3, 4, 5, 6, 7, 8, 9, 10]
      decide

/-- Witness for C1 at `k = 500`. -/
theorem get_all_transactions_pagination_witness :
    (10 ∈ pages_requested (c1Api 500) "0xd" "txlist" ∧ 10 * MAX_RESULTS ≤ 10000) ∧
    (0 < 500 ∧ 500 < MAX_RESULTS ∧
      (get_all_transactions (c1Api 500) "0xd" "txlist").length = 9000 + 500 ∧
      pages_requested (c1Api 500) "0xd" "txlist" =
        [1, 2, 3, 4, 5, 6, 7, 8, 9, 10]) := by
  have h10 := (get_all_transactions_pagination.2 500 (by decide) (by decide)).2
  refine ⟨⟨?_, ?_⟩, by decide, by decide,
    (get_all_transactions_pagination.2 500 (by decide) (by decide)).1, h10⟩
  · rw [h10]
    decide
  · exact get_all_transactions_pagination.1 (c1Api 500) "0xd" "txlist" 10
      (by rw [h10]; decide)

/-- One full-page step of the pagination loop under the C7 API. -/
theorem c7_step (fuel page : Nat) (h2 : page ≤ 2) (all : List Tx) (pages : List Nat) :
    get_all_transactions_loop c7Api "0xd" "txlist" (fuel + 1) page all pages =
      get_all_transactions_loop c7Api "0xd" "txlist" fuel (page + 1)
        (all ++ List.replicate MAX_RESULTS pageTx) (pages ++ [page]) := by
  have hg : ¬ (10000 < page * MAX_RESULTS) := by
    simp only [MAX_RESULTS]
    omega
  have hf : fetch_with_retry (fun attempt => c7Api "0xd" "txlist" page attempt) =
      Except.ok ⟨"1", "OK", List.replicate MAX_RESULTS pageTx⟩ := by
    simp [fetch_with_retry, fetch_etherscan_data, c7Api, h2]
  rw [get_all_transactions_loop, if_neg hg, hf]
  have hM0 : ¬ (MAX_RESULTS = 0) := by simp [MAX_RESULTS]
  simp [hM0]

/-- The full C7 run: two full pages are fetched, the third page fails on
all retry attempts, and the accumulated two pages are returned. -/
theorem c7_run :
    get_all_transactions_loop c7Api "0xd" "txlist" 11 1 [] [] =
      ([] ++ List.replicate MAX_RESULTS pageTx ++ List.replicate MAX_RESULTS pageTx,
       [] ++ [1] ++ [2] ++ [3]) := by
  have e1 : get_all_transactions_loop c7Api "0xd" "txlist" 11 1 [] [] =
      get_all_transactions_loop c7Api "0xd" "txlist" 10 2
        ([] ++ List.replicate MAX_RESULTS pageTx) ([] ++ [1]) :=
    c7_step 10 1 (by decide) [] []
  have e2 : get_all_transactions_loop c7Api "0xd" "txlist" 10 2
      ([] ++ List.replicate MAX_RESULTS pageTx) ([] ++ [1]) =
      get_all_transactions_loop c7Api "0xd" "txlist" 9 3
        ([] ++ List.replicate MAX_RESULTS pageTx ++ List.replicate MAX_RESULTS pageTx)
        ([] ++ [1] ++ [2]) :=
    c7_step 9 2 (by decide) _ _
  rw [e1, e2]
  have hg3 : ¬ (10000 < 3 * MAX_RESULTS) := by
    simp only [MAX_RESULTS]
    omega
  have hf3 : fetch_with_retry (fun attempt => c7Api "0xd" "txlist" 3 attempt) =
      Except.error "request failed" := by
    simp [fetch_with_retry, fetch_etherscan_data, c7Api]
  rw [show (9 : Nat) = 8 + 1 from rfl, get_all_transactions_loop, if_neg hg3, hf3]

/-- C7: `get_all_transactions` never propagates an exception: when a page
request fails after its bounded retries the transactions accumulated from
earlier pages are returned (first conjunct, and concretely the two-page
prefix in the c7Api scenario); a response reporting no transactions found
is a success for `fetch_etherscan_data` even with a non-"1" status
(second conjunct), and an empty result list ends pagination returning the
accumulated transactions (third conjunct). -/
theorem get_all_transactions_error_handling :
    (∀ (api : EtherscanApi) (address action : String) (fuel page : Nat)
        (all_txs : List Tx) (pages : List Nat) (e : String),
        page * MAX_RESULTS ≤ 10000 →
        fetch_with_retry (fun attempt => api address action page attempt) =
          Except.error e →
        get_all_transactions_loop api address action (fuel + 1) page all_txs pages =
          (all_txs, pages ++ [page])) ∧
    (∀ data : ApiResponse, data.message = "No transactions found" →
        fetch_etherscan_data (some data) = Except.ok data) ∧
    (∀ (api : EtherscanApi) (address action : String) (fuel page : Nat)
        (all_txs : List Tx) (pages : List Nat) (data : ApiResponse),
        page * MAX_RESULTS ≤ 10000 →
        fetch_with_retry (fun attempt => api address action page attempt) =
          Except.ok data →
        data.result = [] →
        get_all_transactions_loop api address action (fuel + 1) page all_txs pages =
          (all_txs, pages ++ [page])) ∧
    (get_all_transactions c7Api "0xd" "txlist" =
        List.replicate MAX_RESULTS pageTx ++ List.replicate MAX_RESULTS pageTx ∧
      pages_requested c7Api "0xd" "txlist" = [1, 2, 3]) := by
  refine ⟨?_, ?_, ?_, ?_, ?_⟩
  · intro api address action fuel page all_txs pages e hle herr
    rw [get_all_transactions_loop, if_neg (Nat.not_lt.mpr hle), herr]
  · intro data h
    simp [fetch_etherscan_data, h]
  · intro api address action fuel page all_txs pages data hle hok hres
    rw [get_all_transactions_loop, if_neg (Nat.not_lt.mpr hle), hok]
    simp only [if_pos hres]
  · show (get_all_transactions_loop c7Api "0xd" "txlist" 11 1 [] []).1 = _
    rw [c7_run]
    simp
  · show (get_all_transactions_loop c7Api "0xd" "txlist" 11 1 [] []).2 = _
    rw [c7_run]
    simp

/-- Witness for C7: a failing page, a "No transactions found" response,
and an empty-result page, each at concrete inputs. -/
theorem get_all_transactions_error_handling_witness :
    (1 * MAX_RESULTS ≤ 10000 ∧
      fetch_with_retry (fun attempt => failApi "0xd" "txlist" 1 attempt) =
        Except.error "request failed" ∧
      get_all_transactions_loop failApi "0xd" "txlist" 11 1 [pageTx] [] =
        ([pageTx], [1])) ∧
    ((⟨"0", "No transactions found", []⟩ : ApiResponse).message =
        "No transactions found" ∧
      fetch_etherscan_data (some ⟨"0", "No transactions found", []⟩) =
        Except.ok ⟨"0", "No transactions found", []⟩) ∧
    (fetch_with_retry (fun attempt => c3Api "0xd" "txlistinternal" 1 attempt) =
        Except.ok ⟨"0", "No transactions found", []⟩ ∧
      get_all_transactions_loop c3Api "0xd" "txlistinternal" 11 1 [pageTx] [] =
        ([pageTx], [1])) :=
  ⟨⟨by decide, by rfl,
    get_all_transactions_error_handling.1 failApi "0xd" "txlist" 10 1 [pageTx] []
      "request failed" (by decide) (by rfl)⟩,
   ⟨rfl, get_all_transactions_error_handling.2.1 _ rfl⟩,
   ⟨by rfl,
    get_all_transactions_error_handling.2.2.1 c3Api "0xd" "txlistinternal" 10 1
      [pageTx] [] ⟨"0", "No transactions found", []⟩ (by decide) (by rfl) rfl⟩⟩

/-! ### C2, C4, C10: the deposit analyzer -/

/-- C2: `analyze_deposit` returns None in each of these cases: the
candidate is a contract and not a member of exchange_set; the combined
normal+internal transaction count is at least 10000; the number of
distinct qualifying senders exceeds sender_threshold; no transaction from
the deposit to an exchange_set member exists; or exactly one distinct
qualifying sender exists even though a forwarding transaction exists. -/
theorem analyze_deposit_rejections (is_contract : String → Bool) (api : EtherscanApi)
    (deposit : String) (exchange_set : List String) (sender_threshold : Nat) :
    ((is_contract deposit = true ∧ deposit ∉ exchange_set) ∨
      10000 ≤ (get_all_transactions api deposit "txlist" ++
        get_all_transactions api deposit "txlistinternal").length ∨
      sender_threshold < (sender_stats_of deposit exchange_set
        (get_all_transactions api deposit "txlist" ++
         get_all_transactions api deposit "txlistinternal")).length ∨
      (∀ tx ∈ get_all_transactions api deposit "txlist" ++
          get_all_transactions api deposit "txlistinternal",
        ¬(str_lower tx.tx_from = deposit ∧ str_lower tx.tx_to ∈ exchange_set)) ∨
      ((∃ fwd, forwarded_of deposit exchange_set
          (get_all_transactions api deposit "txlist" ++
           get_all_transactions api deposit "txlistinternal") = some fwd) ∧
        (sender_stats_of deposit exchange_set
          (get_all_transactions api deposit "txlist" ++
           get_all_transactions api deposit "txlistinternal")).length = 1)) →
    analyze_deposit is_contract api deposit exchange_set sender_threshold = none := by
  intro h
  simp only [analyze_deposit]
  by_cases h1 : deposit ∉ exchange_set ∧ is_contract deposit = true
  · rw [if_pos h1]
  · rw [if_neg h1]
    by_cases h2 : deposit = ""
    · rw [if_pos h2]
    · rw [if_neg h2]
      by_cases h3 : 10000 ≤ (get_all_transactions api deposit "txlist" ++
          get_all_transactions api deposit "txlistinternal").length
      · rw [if_pos h3]
      · rw [if_neg h3]
        by_cases h4 : sender_threshold < (sender_stats_of deposit exchange_set
            (get_all_transactions api deposit "txlist" ++
             get_all_transactions api deposit "txlistinternal")).length
        · rw [if_pos h4]
        · rw [if_neg h4]
          rcases h with hc | hlen | hsend | hfwd | hone
          · exact absurd ⟨hc.2, hc.1⟩ h1
          · exact absurd hlen h3
          · exact absurd hsend h4
          · have hnone : forwarded_of deposit exchange_set
                (get_all_transactions api deposit "txlist" ++
                 get_all_transactions api deposit "txlistinternal") = none := by
              simp only [forwarded_of, Option.map_eq_none', List.find?_eq_none]
              intro tx htx
              simpa using hfwd tx htx
            rw [hnone]
          · cases hf : forwarded_of deposit exchange_set
                (get_all_transactions api deposit "txlist" ++
                 get_all_transactions api deposit "txlistinternal") with
            | none => rfl
            | some fwd =>
              have hno : ¬(fwd ≠ "" ∧ 1 < (sender_stats_of deposit exchange_set
                  (get_all_transactions api deposit "txlist" ++
                   get_all_transactions api deposit "txlistinternal")).length) := by
                rw [hone.2]
                simp
              simp [hno]

/-- Witness for C2 via the contract-rejection case. -/
theorem analyze_deposit_rejections_witness :
    ((fun _ : String => true) "0xd" = true ∧ "0xd" ∉ ["0xe"]) ∧
    analyze_deposit (fun _ => true) failApi "0xd" ["0xe"] 1000 = none :=
  ⟨⟨rfl, by decide⟩,
   analyze_deposit_rejections (fun _ => true) failApi "0xd" ["0xe"] 1000
     (Or.inl ⟨rfl, by decide⟩)⟩

/-- Inversion of a successful `analyze_deposit`: the returned cluster is
built from the sender statistics and the first forwarding match. -/
theorem analyze_deposit_some (is_contract : String → Bool) (api : EtherscanApi)
    (deposit : String) (exchange_set : List String) (sender_threshold : Nat)
    (c : Cluster) :
    analyze_deposit is_contract api deposit exchange_set sender_threshold = some c →
    ∃ fwd, forwarded_of deposit exchange_set
        (get_all_transactions api deposit "txlist" ++
         get_all_transactions api deposit "txlistinternal") = some fwd ∧
      fwd ≠ "" ∧
      1 < (sender_stats_of deposit exchange_set
        (get_all_transactions api deposit "txlist" ++
         get_all_transactions api deposit "txlistinternal")).length ∧
      c = { deposit := deposit, exchange := fwd,
            related_users := (sort_senders (sender_stats_of deposit exchange_set
              (get_all_transactions api deposit "txlist" ++
               get_all_transactions api deposit "txlistinternal"))).map Prod.fst,
            user_stats := sender_stats_of deposit exchange_set
              (get_all_transactions api deposit "txlist" ++
               get_all_transactions api deposit "txlistinternal"),
            cluster_size := (sender_stats_of deposit exchange_set
              (get_all_transactions api deposit "txlist" ++
               get_all_transactions api deposit "txlistinternal")).length } := by
  intro h
  simp only [analyze_deposit] at h
  by_cases h1 : deposit ∉ exchange_set ∧ is_contract deposit = true
  · rw [if_pos h1] at h
    exact absurd h (by simp)
  · rw [if_neg h1] at h
    by_cases h2 : deposit = ""
    · rw [if_pos h2] at h
      exact absurd h (by simp)
    · rw [if_neg h2] at h
      by_cases h3 : 10000 ≤ (get_all_transactions api deposit "txlist" ++
          get_all_transactions api deposit "txlistinternal").length
      · rw [if_pos h3] at h
        exact absurd h (by simp)
      · rw [if_neg h3] at h
        by_cases h4 : sender_threshold < (sender_stats_of deposit exchange_set
            (get_all_transactions api deposit "txlist" ++
             get_all_transactions api deposit "txlistinternal")).length
        · rw [if_pos h4] at h
          exact absurd h (by simp)
        · rw [if_neg h4] at h
          cases hf : forwarded_of deposit exchange_set
              (get_all_transactions api deposit "txlist" ++
               get_all_transactions api deposit "txlistinternal") with
          | none =>
            rw [hf] at h
            simp at h
          | some fwd =>
            rw [hf] at h
            by_cases h5 : fwd ≠ "" ∧ 1 < (sender_stats_of deposit exchange_set
                (get_all_transactions api deposit "txlist" ++
                 get_all_transactions api deposit "txlistinternal")).length
            · simp only [if_pos h5] at h
              exact ⟨fwd, rfl, h5.1, h5.2, (Option.some.inj h).symm⟩
            · simp only [if_neg h5] at h
              exact absurd h (by simp)

/-- C4 (amended): in every cluster returned by `analyze_deposit` the
recorded forwarding exchange is the recipient of the *first transaction
in scan order* (normal transactions in ascending time order followed by
internal transactions in ascending time order) whose sender is the
deposit and whose recipient is in exchange_set.  Within each of the two
lists this is the earliest qualifying transaction, but not necessarily
over the combined history, since the concatenation is not sorted by
time. -/
theorem analyze_deposit_forward_scan_order (is_contract : String → Bool)
    (api : EtherscanApi) (deposit : String) (exchange_set : List String)
    (sender_threshold : Nat) (c : Cluster) :
    analyze_deposit is_contract api deposit exchange_set sender_threshold = some c →
    ∃ l₁ tx l₂,
      get_all_transactions api deposit "txlist" ++
        get_all_transactions api deposit "txlistinternal" = l₁ ++ tx :: l₂ ∧
      (str_lower tx.tx_from = deposit ∧ str_lower tx.tx_to ∈ exchange_set) ∧
      (∀ tx' ∈ l₁, ¬(str_lower tx'.tx_from = deposit ∧
        str_lower tx'.tx_to ∈ exchange_set)) ∧
      c.exchange = str_lower tx.tx_to := by
  intro h
  obtain ⟨fwd, hfo, hne, hlt, hc⟩ :=
    analyze_deposit_some is_contract api deposit exchange_set sender_threshold c h
  subst hc
  rw [forwarded_of, Option.map_eq_some'] at hfo
  obtain ⟨tx, hfind, hfwd⟩ := hfo
  rw [List.find?_eq_some] at hfind
  obtain ⟨hp, as_, bs_, heq, hprev⟩ := hfind
  refine ⟨as_, tx, bs_, heq, by simpa using hp, ?_, ?_⟩
  · intro tx' htx'
    have h2 := hprev tx' htx'
    simp at h2
    tauto
  · exact hfwd.symm

/-- C4 counterexample: the deposit forwards to 0xex2 in a normal
transaction at time 100 and to 0xex1 in an internal transaction at the
earlier time 50; the cluster records 0xex2 — the first qualifying
transaction in scan order — although the earliest-in-time qualifying
transaction over the combined history has recipient 0xex1. -/
theorem analyze_deposit_forward_not_earliest :
    (analyze_deposit (fun _ => false) c4Api "0xd" ["0xex1", "0xex2"] 1000).map
        (fun c => c.exchange) = some "0xex2" ∧
    (c4AllTxs.filter (fun tx =>
        decide (str_lower tx.tx_from = "0xd" ∧
          str_lower tx.tx_to ∈ ["0xex1", "0xex2"]))).map
        (fun tx => (str_lower tx.tx_to, tx.timeStamp)) =
      [("0xex2", 100), ("0xex1", 50)] ∧
    (50 : Nat) < 100 ∧ "0xex1" ≠ "0xex2" := by
  refine ⟨by with_unfolding_all rfl, by with_unfolding_all rfl, by decide, by decide⟩

/-- Witness for the amended C4 at the counterexample inputs. -/
theorem analyze_deposit_forward_scan_order_witness :
    ∃ l₁ tx l₂,
      get_all_transactions c4Api "0xd" "txlist" ++
        get_all_transactions c4Api "0xd" "txlistinternal" = l₁ ++ tx :: l₂ ∧
      (str_lower tx.tx_from = "0xd" ∧ str_lower tx.tx_to ∈ ["0xex1", "0xex2"]) ∧
      (∀ tx' ∈ l₁, ¬(str_lower tx'.tx_from = "0xd" ∧
        str_lower tx'.tx_to ∈ ["0xex1", "0xex2"])) ∧
      c4Cluster.exchange = str_lower tx.tx_to :=
  analyze_deposit_forward_scan_order (fun _ => false) c4Api "0xd" ["0xex1", "0xex2"]
    1000 c4Cluster (by with_unfolding_all rfl)

/-- A sender_stats update introduces no key other than the updated one. -/
theorem sender_stats_update_keys (value_eth : ℚ) :
    ∀ (stats : List (String × SenderStats)) (key x : String),
      x ∈ (sender_stats_update value_eth stats key).map Prod.fst →
      x = key ∨ x ∈ stats.map Prod.fst := by
  intro stats
  induction stats with
  | nil =>
    intro key x hx
    simp [sender_stats_update] at hx
    exact Or.inl hx
  | cons p rest ih =>
    intro key x hx
    obtain ⟨k, s⟩ := p
    simp only [sender_stats_update] at hx
    by_cases hk : k = key
    · rw [if_pos hk] at hx
      simp only [List.map_cons, List.mem_cons] at hx
      rcases hx with hx | hx
      · exact Or.inr (by simp [hx])
      · exact Or.inr (by simp [hx])
    · rw [if_neg hk] at hx
      simp only [List.map_cons, List.mem_cons] at hx
      rcases hx with hx | hx
      · exact Or.inr (by simp [hx])
      · rcases ih key x hx with h | h
        · exact Or.inl h
        · exact Or.inr (by simp [h])

/-- Invariant of the sender-collection fold: every key differs from the
deposit and is outside the exchange set. -/
theorem sender_stats_foldl_keys (deposit : String) (exchange_set : List String) :
    ∀ (txs : List Tx) (stats : List (String × SenderStats)),
      (∀ x ∈ stats.map Prod.fst, x ≠ deposit ∧ x ∉ exchange_set) →
      ∀ x ∈ ((txs.foldl (sender_stats_step deposit exchange_set) stats).map Prod.fst),
        x ≠ deposit ∧ x ∉ exchange_set := by
  intro txs
  induction txs with
  | nil =>
    intro stats hinv x hx
    exact hinv x hx
  | cons tx rest ih =>
    intro stats hinv x hx
    rw [List.foldl_cons] at hx
    refine ih _ ?_ x hx
    intro y hy
    simp only [sender_stats_step] at hy
    by_cases hcond : str_lower tx.tx_to = deposit ∧
        str_lower tx.tx_from ∉ exchange_set ∧ str_lower tx.tx_from ≠ deposit
    · rw [if_pos hcond] at hy
      rcases sender_stats_update_keys _ _ _ _ hy with h | h
      · subst h
        exact ⟨hcond.2.2, hcond.2.1⟩
      · exact hinv y h
    · rw [if_neg hcond] at hy
      exact hinv y hy

/-- Every sender_stats key differs from the deposit and is outside the
exchange set. -/
theorem sender_stats_of_keys (deposit : String) (exchange_set : List String)
    (txs : List Tx) :
    ∀ x ∈ (sender_stats_of deposit exchange_set txs).map Prod.fst,
      x ≠ deposit ∧ x ∉ exchange_set :=
  sender_stats_foldl_keys deposit exchange_set txs [] (by simp)

/-- C10: every cluster returned by `analyze_deposit` satisfies:
cluster_size equals both the number of user_stats entries and the length
of related_users; related_users is the key sequence of a permutation of
user_stats that is sorted by descending per-sender transaction count (so
it is exactly the keys of user_stats in that order); cluster_size is at
least 2; and neither the deposit itself nor any member of exchange_set
appears in related_users (this holds unconditionally, since the compared
keys are lowercased senders that passed the exclusion filter). -/
theorem analyze_deposit_cluster_invariants (is_contract : String → Bool)
    (api : EtherscanApi) (deposit : String) (exchange_set : List String)
    (sender_threshold : Nat) (c : Cluster) :
    analyze_deposit is_contract api deposit exchange_set sender_threshold = some c →
    c.cluster_size = c.user_stats.length ∧
    c.cluster_size = c.related_users.length ∧
    c.related_users.Perm (c.user_stats.map Prod.fst) ∧
    (∃ sorted_stats : List (String × SenderStats),
        sorted_stats.Perm c.user_stats ∧
        sorted_stats.Pairwise (fun a b => b.2.count ≤ a.2.count) ∧
        c.related_users = sorted_stats.map Prod.fst) ∧
    2 ≤ c.cluster_size ∧
    deposit ∉ c.related_users ∧
    ∀ e ∈ exchange_set, e ∉ c.related_users := by
  intro h
  obtain ⟨fwd, hfo, hne, hlt, hc⟩ :=
    analyze_deposit_some is_contract api deposit exchange_set sender_threshold c h
  subst hc
  refine ⟨rfl, ?_, ?_, ?_, ?_, ?_, ?_⟩
  · show (sender_stats_of deposit exchange_set _).length = _
    rw [List.length_map]
    exact (stable_sort_perm _ _).length_eq.symm
  · show ((sort_senders _).map Prod.fst).Perm _
    exact (stable_sort_perm _ _).map Prod.fst
  · refine ⟨sort_senders (sender_stats_of deposit exchange_set
      (get_all_transactions api deposit "txlist" ++
       get_all_transactions api deposit "txlistinternal")), ?_, ?_, rfl⟩
    · exact stable_sort_perm _ _
    · have hp := stable_sort_pairwise
        (fun a b : String × SenderStats => decide (b.2.count ≤ a.2.count))
        (by intro a b c hab hbc
            simp only [decide_eq_true_eq] at hab hbc ⊢
            omega)
        (by intro a b
            simp only [Bool.or_eq_true, decide_eq_true_eq]
            omega)
        (sender_stats_of deposit exchange_set
          (get_all_transactions api deposit "txlist" ++
           get_all_transactions api deposit "txlistinternal"))
      exact hp.imp (fun hxy => of_decide_eq_true hxy)
  · exact hlt
  · intro hmem
    have hmem2 : deposit ∈ (sender_stats_of deposit exchange_set
        (get_all_transactions api deposit "txlist" ++
         get_all_transactions api deposit "txlistinternal")).map Prod.fst :=
      (((stable_sort_perm _ _).map Prod.fst).mem_iff).mp hmem
    exact (sender_stats_of_keys _ _ _ deposit hmem2).1 rfl
  · intro e he hmem
    have hmem2 : e ∈ (sender_stats_of deposit exchange_set
        (get_all_transactions api deposit "txlist" ++
         get_all_transactions api deposit "txlistinternal")).map Prod.fst :=
      (((stable_sort_perm _ _).map Prod.fst).mem_iff).mp hmem
    exact (sender_stats_of_keys _ _ _ e hmem2).2 he

/-- Witness for C10 at the C3 scenario inputs. -/
theorem analyze_deposit_cluster_invariants_witness :
    2 ≤ c3Cluster.cluster_size ∧ "0xd" ∉ c3Cluster.related_users ∧
    "0xe" ∈ ["0xe"] ∧ "0xe" ∉ c3Cluster.related_users :=
  have h : analyze_deposit (fun _ => false) c3Api "0xd" ["0xe"] 1000 = some c3Cluster := by
    with_unfolding_all rfl
  ⟨(analyze_deposit_cluster_invariants (fun _ => false) c3Api "0xd" ["0xe"] 1000
      c3Cluster h).2.2.2.2.1,
   (analyze_deposit_cluster_invariants (fun _ => false) c3Api "0xd" ["0xe"] 1000
      c3Cluster h).2.2.2.2.2.1,
   by decide,
   (analyze_deposit_cluster_invariants (fun _ => false) c3Api "0xd" ["0xe"] 1000
      c3Cluster h).2.2.2.2.2.2 "0xe" (by decide)⟩

/-! ### C9: funding-source aggregation -/

/-- Appending an element to a list with a minimum takes a `min`. -/
theorem min?_concat {l : List Nat} {x : Nat} (h : l.min? = some x) (a : Nat) :
    (l ++ [a]).min? = some (min x a) := by
  cases l with
  | nil => simp [List.min?] at h
  | cons b bs =>
    simp only [List.min?, Option.some.injEq] at h
    simp only [List.cons_append, List.min?, List.foldl_append, h, List.foldl_cons,
      List.foldl_nil, Option.some.injEq]

/-- Appending an element to a list with a maximum takes a `max`. -/
theorem max?_concat {l : List Nat} {x : Nat} (h : l.max? = some x) (a : Nat) :
    (l ++ [a]).max? = some (max x a) := by
  cases l with
  | nil => simp [List.max?] at h
  | cons b bs =>
    simp only [List.max?, Option.some.injEq] at h
    simp only [List.cons_append, List.max?, List.foldl_append, h, List.foldl_cons,
      List.foldl_nil, Option.some.injEq]

/-- Lookup after a funding_update: the updated key gets the created or
updated entry, every other key is untouched. -/
theorem funding_update_find (label : String) (v : ℚ) (ts : Nat) (key s : String) :
    ∀ fs : List (String × FundingSource),
      (funding_update label v ts fs key).find? (fun p => decide (p.1 = s)) =
        if s = key then
          match fs.find? (fun p => decide (p.1 = s)) with
          | none => some (key, ⟨label, 1, [v], [ts], ts, ts⟩)
          | some q => some (q.1, ⟨q.2.label, q.2.count + 1, q.2.values ++ [v],
              q.2.timestamps ++ [ts], min q.2.first_seen ts, max q.2.last_seen ts⟩)
        else fs.find? (fun p => decide (p.1 = s)) := by
  intro fs
  induction fs with
  | nil =>
    by_cases hs : s = key
    · subst hs
      simp [funding_update]
    · have hk : ¬ key = s := fun h => hs h.symm
      simp [funding_update, hs, hk]
  | cons p rest ih =>
    obtain ⟨k, e⟩ := p
    simp only [funding_update]
    by_cases hk : k = key
    · subst hk
      by_cases hs : s = k
      · subst hs
        simp
      · have h2 : ¬ k = s := fun h => hs h.symm
        simp [hs, h2]
    · rw [if_neg hk]
      by_cases hs : s = k
      · subst hs
        simp [hk]
      · have h2 : ¬ k = s := fun h => hs h.symm
        simp [hs, h2, ih]

/-- One funding_step preserves the aggregation invariant tying each key's
entry to its matching transactions among those processed so far. -/
theorem funding_step_inv (target : String) (excSet : List String)
    (labels : Option (List (String × String))) (fs : List (String × FundingSource))
    (processed : List Tx) (tx : Tx)
    (hinv : ∀ s : String,
      (fs.find? (fun p => decide (p.1 = s)) = none ∧
        funding_matches target excSet s processed = []) ∨
      (∃ e, fs.find? (fun p => decide (p.1 = s)) = some (s, e) ∧
        FundingSpec e (funding_matches target excSet s processed))) :
    ∀ s : String,
      ((funding_step target excSet labels fs tx).find?
          (fun p => decide (p.1 = s)) = none ∧
        funding_matches target excSet s (processed ++ [tx]) = []) ∨
      (∃ e, (funding_step target excSet labels fs tx).find?
          (fun p => decide (p.1 = s)) = some (s, e) ∧
        FundingSpec e (funding_matches target excSet s (processed ++ [tx]))) := by
  intro s
  simp only [funding_step]
  by_cases hcond : str_lower tx.tx_to = target ∧ str_lower tx.tx_from ∈ excSet
  · rw [if_pos hcond]
    rw [funding_update_find]
    by_cases hs : s = str_lower tx.tx_from
    · subst hs
      have hm : funding_matches target excSet (str_lower tx.tx_from)
            (processed ++ [tx]) =
          funding_matches target excSet (str_lower tx.tx_from) processed ++ [tx] := by
        simp [funding_matches, List.filter_append, hcond.1, hcond.2]
      rw [if_pos rfl, hm]
      rcases hinv (str_lower tx.tx_from) with ⟨hnone, hempty⟩ | ⟨e, hsome, hspec⟩
      · rw [hnone, hempty]
        refine Or.inr ⟨_, rfl, ?_⟩
        simp [FundingSpec, List.min?, List.max?]
      · rw [hsome]
        refine Or.inr ⟨_, rfl, ?_⟩
        obtain ⟨hcnt, hv, hts, hmin, hmax⟩ := hspec
        refine ⟨?_, ?_, ?_, ?_, ?_⟩
        · simp [hcnt]
        · simp [hv]
        · simp [hts]
        · simpa using min?_concat hmin tx.timeStamp
        · simpa using max?_concat hmax tx.timeStamp
    · have hm2 : funding_matches target excSet s (processed ++ [tx]) =
          funding_matches target excSet s processed := by
        have : ¬ (str_lower tx.tx_to = target ∧ str_lower tx.tx_from ∈ excSet ∧
            str_lower tx.tx_from = s) := by
          intro hq
          exact hs hq.2.2.symm
        simp [funding_matches, List.filter_append, this]
      rw [if_neg hs, hm2]
      exact hinv s
  · rw [if_neg hcond]
    have hm3 : funding_matches target excSet s (processed ++ [tx]) =
        funding_matches target excSet s processed := by
      have : ¬ (str_lower tx.tx_to = target ∧ str_lower tx.tx_from ∈ excSet ∧
          str_lower tx.tx_from = s) := by
        intro hq
        exact hcond ⟨hq.1, hq.2.1⟩
      simp [funding_matches, List.filter_append, this]
    rw [hm3]
    exact hinv s

/-- The aggregation invariant holds after folding any transaction list. -/
theorem funding_fold_spec (target : String) (excSet : List String)
    (labels : Option (List (String × String))) :
    ∀ (txs : List Tx) (fs : List (String × FundingSource)) (processed : List Tx),
      (∀ s : String,
        (fs.find? (fun p => decide (p.1 = s)) = none ∧
          funding_matches target excSet s processed = []) ∨
        (∃ e, fs.find? (fun p => decide (p.1 = s)) = some (s, e) ∧
          FundingSpec e (funding_matches target excSet s processed))) →
      ∀ s : String,
        ((txs.foldl (funding_step target excSet labels) fs).find?
            (fun p => decide (p.1 = s)) = none ∧
          funding_matches target excSet s (processed ++ txs) = []) ∨
        (∃ e, (txs.foldl (funding_step target excSet labels) fs).find?
            (fun p => decide (p.1 = s)) = some (s, e) ∧
          FundingSpec e (funding_matches target excSet s (processed ++ txs))) := by
  intro txs
  induction txs with
  | nil =>
    intro fs processed hinv s
    simpa using hinv s
  | cons tx rest ih =>
    intro fs processed hinv s
    rw [List.foldl_cons,
      show processed ++ tx :: rest = (processed ++ [tx]) ++ rest by simp]
    exact ih (funding_step target excSet labels fs tx) (processed ++ [tx])
      (funding_step_inv target excSet labels fs processed tx hinv) s

/-- C9: in the mapping returned by `find_funding_sources`, the entry keyed
by an exchange sender `s` aggregates exactly the transactions whose
recipient is the target and whose sender is `s`: its count is their
number, its values list holds their ETH-converted amounts in order, its
timestamps are their timestamps, and first_seen/last_seen are the
earliest/latest timestamp among them. -/
theorem find_funding_sources_aggregates (api : EtherscanApi)
    (target_address : String) (exchange_addresses : List String)
    (exchange_labels : Option (List (String × String)))
    (s : String) (entry : FundingSource) :
    (find_funding_sources api target_address exchange_addresses
        exchange_labels).find? (fun p => decide (p.1 = s)) = some (s, entry) →
    entry.count = (funding_matches (str_lower target_address)
        (exchange_addresses.map str_lower) s
        (get_all_transactions api (str_lower target_address) "txlist" ++
         get_all_transactions api (str_lower target_address) "txlistinternal")).length ∧
    entry.values = (funding_matches (str_lower target_address)
        (exchange_addresses.map str_lower) s
        (get_all_transactions api (str_lower target_address) "txlist" ++
         get_all_transactions api (str_lower target_address) "txlistinternal")).map
        (fun tx => wei_to_eth tx.value) ∧
    entry.timestamps = (funding_matches (str_lower target_address)
        (exchange_addresses.map str_lower) s
        (get_all_transactions api (str_lower target_address) "txlist" ++
         get_all_transactions api (str_lower target_address) "txlistinternal")).map
        (fun tx => tx.timeStamp) ∧
    ((funding_matches (str_lower target_address)
        (exchange_addresses.map str_lower) s
        (get_all_transactions api (str_lower target_address) "txlist" ++
         get_all_transactions api (str_lower target_address) "txlistinternal")).map
        (fun tx => tx.timeStamp)).min? = some entry.first_seen ∧
    ((funding_matches (str_lower target_address)
        (exchange_addresses.map str_lower) s
        (get_all_transactions api (str_lower target_address) "txlist" ++
         get_all_transactions api (str_lower target_address) "txlistinternal")).map
        (fun tx => tx.timeStamp)).max? = some entry.last_seen := by
  intro h
  simp only [find_funding_sources] at h
  have hfold := funding_fold_spec (str_lower target_address)
    (exchange_addresses.map str_lower) exchange_labels
    (get_all_transactions api (str_lower target_address) "txlist" ++
     get_all_transactions api (str_lower target_address) "txlistinternal")
    [] [] (by intro s2; exact Or.inl ⟨rfl, rfl⟩) s
  rcases hfold with ⟨hnone, _⟩ | ⟨e, hsome, hspec⟩
  · rw [hnone] at h
    cases h
  · rw [hsome] at h
    obtain rfl : e = entry := by
      have := Option.some.inj h
      exact congrArg Prod.snd this
    obtain ⟨hcnt, hv, hts, hmin, hmax⟩ := hspec
    simp only [List.nil_append] at hcnt hv hts hmin hmax
    exact ⟨hcnt, hv, hts, hmin, hmax⟩

/-- Witness for C9: the exchange pays the target twice (1 ETH at time 100
and 3 ETH at time 40, the latter in mixed case); the entry has count 2,
first_seen 40, last_seen 100. -/
theorem find_funding_sources_aggregates_witness :
    (find_funding_sources c9Api "0xT" ["0xEx"] none).find?
        (fun p => decide (p.1 = "0xex")) =
      some ("0xex", ⟨"0xex", 2, [1, 3], [100, 40], 40, 100⟩) ∧
    (⟨"0xex", 2, [1, 3], [100, 40], 40, 100⟩ : FundingSource).count =
      (funding_matches (str_lower "0xT") (["0xEx"].map str_lower) "0xex"
        (get_all_transactions c9Api (str_lower "0xT") "txlist" ++
         get_all_transactions c9Api (str_lower "0xT") "txlistinternal")).length ∧
    ((funding_matches (str_lower "0xT") (["0xEx"].map str_lower) "0xex"
        (get_all_transactions c9Api (str_lower "0xT") "txlist" ++
         get_all_transactions c9Api (str_lower "0xT") "txlistinternal")).map
        (fun tx => tx.timeStamp)).min? = some 40 ∧
    ((funding_matches (str_lower "0xT") (["0xEx"].map str_lower) "0xex"
        (get_all_transactions c9Api (str_lower "0xT") "txlist" ++
         get_all_transactions c9Api (str_lower "0xT") "txlistinternal")).map
        (fun tx => tx.timeStamp)).max? = some 100 :=
  have h : (find_funding_sources c9Api "0xT" ["0xEx"] none).find?
      (fun p => decide (p.1 = "0xex")) =
      some ("0xex", ⟨"0xex", 2, [1, 3], [100, 40], 40, 100⟩) := by
    with_unfolding_all rfl
  ⟨h,
   (find_funding_sources_aggregates c9Api "0xT" ["0xEx"] none "0xex" _ h).1,
   (find_funding_sources_aggregates c9Api "0xT" ["0xEx"] none "0xex" _ h).2.2.2.1,
   (find_funding_sources_aggregates c9Api "0xT" ["0xEx"] none "0xex" _ h).2.2.2.2⟩

/-! ### C6: memoization of is_contract -/

/-- Truncating before an append commutes with truncating the whole. -/
theorem take_append_take {α : Type} (l s : List α) (m : Nat) :
    (l ++ s.take m).take m = (l ++ s).take m := by
  rw [List.take_append_eq_append_take, List.take_append_eq_append_take,
    List.take_take, Nat.min_eq_left (Nat.sub_le m l.length)]

/-- Splitting a call sequence splits the trace at the intermediate cache. -/
theorem lru_calls_append (net : String → Bool) (m : Nat) :
    ∀ (qs1 qs2 : List String) (cache : List (String × Bool)),
      lru_calls net m cache (qs1 ++ qs2) =
        ((lru_calls net m cache qs1).1 ++
          (lru_calls net m (lru_calls net m cache qs1).2 qs2).1,
         (lru_calls net m (lru_calls net m cache qs1).2 qs2).2) := by
  intro qs1
  induction qs1 with
  | nil =>
    intro qs2 cache
    simp [lru_calls]
  | cons a rest ih =>
    intro qs2 cache
    simp only [List.cons_append, lru_calls, List.append_eq, ih]

/-- An address missing from the cache keys is not found. -/
theorem find?_eq_none_of_not_mem_keys {cache : List (String × Bool)} {a : String}
    (h : a ∉ cache.map Prod.fst) :
    cache.find? (fun e => e.1 == a) = none := by
  rw [List.find?_eq_none]
  intro e he hbeq
  exact h (List.mem_map.mpr ⟨e, he, eq_of_beq hbeq⟩)

/-- A run of pairwise-distinct fresh addresses misses on every call and
leaves the most recent `maxsize` entries in the cache. -/
theorem lru_calls_distinct (net : String → Bool) (m : Nat) :
    ∀ (qs : List String) (cache : List (String × Bool)),
      qs.Nodup → (∀ a ∈ qs, a ∉ cache.map Prod.fst) → cache.take m = cache →
      (lru_calls net m cache qs).1 = qs.map (fun a => (net a, true)) ∧
      (lru_calls net m cache qs).2 =
        (qs.reverse.map (fun a => (a, net a)) ++ cache).take m := by
  intro qs
  induction qs with
  | nil =>
    intro cache _ _ htake
    refine ⟨rfl, ?_⟩
    simp only [lru_calls, List.reverse_nil, List.map_nil, List.nil_append]
    exact htake.symm
  | cons a rest ih =>
    intro cache hnodup hnotin htake
    have hfind : cache.find? (fun e => e.1 == a) = none :=
      find?_eq_none_of_not_mem_keys (hnotin a (by simp))
    simp only [lru_calls, lru_call, hfind]
    have hsub : ∀ x ∈ (((a, net a) :: cache).take m).map Prod.fst,
        x = a ∨ x ∈ cache.map Prod.fst := by
      intro x hx
      have : x ∈ ((a, net a) :: cache).map Prod.fst :=
        ((List.take_sublist m _).map Prod.fst).subset hx
      simpa using this
    have ih2 := ih (((a, net a) :: cache).take m)
      (List.nodup_cons.mp hnodup).2
      (by
        intro b hb hbmem
        rcases hsub b hbmem with h | h
        · exact (List.nodup_cons.mp hnodup).1 (h ▸ hb)
        · exact hnotin b (by simp [hb]) h)
      (by rw [List.take_take, Nat.min_self])
    refine ⟨?_, ?_⟩
    · simp [ih2.1]
    · rw [ih2.2, take_append_take]
      simp [List.append_assoc]

/-- The C6 addresses are pairwise distinct. -/
theorem c6Addr_injective : Function.Injective c6Addr := by
  intro i j h
  have h2 : List.replicate (i + 1) 'a' = List.replicate (j + 1) 'a' :=
    congrArg String.data h
  have h3 := congrArg List.length h2
  simpa using h3

/-- The 2049 C6 queries are pairwise distinct. -/
theorem c6Queries_nodup : c6Queries.Nodup :=
  (List.nodup_range _).map c6Addr_injective

/-- After 2049 distinct queries, the first address has been evicted from
the 2048-entry cache. -/
theorem c6Addr_zero_not_in_final_keys :
    c6Addr 0 ∉ ((c6Queries.reverse.map (fun a => (a, c6Net a)) ++ []).take
      IS_CONTRACT_CACHE_SIZE).map Prod.fst := by
  intro hmem
  rw [List.append_nil, List.map_take, List.map_map] at hmem
  have hid : (Prod.fst ∘ fun a : String => (a, c6Net a)) = id := rfl
  rw [hid, List.map_id] at hmem
  rw [show c6Queries = (List.range (IS_CONTRACT_CACHE_SIZE + 1)).map c6Addr from rfl,
    ← List.map_reverse, ← List.map_take] at hmem
  obtain ⟨i, hi, heq⟩ := List.mem_map.mp hmem
  have hi0 : i = 0 := c6Addr_injective heq
  subst hi0
  rw [List.range_eq_range', List.reverse_range', ← List.map_take,
    List.take_range] at hi
  obtain ⟨j, hj, hval⟩ := List.mem_map.mp hi
  rw [List.mem_range] at hj
  simp only [IS_CONTRACT_CACHE_SIZE] at hj hval
  omega

/-- C6 counterexample: `is_contract` is memoized with
`lru_cache(maxsize=2048)`; after querying 2049 distinct addresses, a
repeated call for the first address is **not** served from the cache — it
performs a new network lookup (the final trace flag is `true`), because
the LRU eviction dropped the entry.  This refutes the claim for "any
number of distinct addresses". -/
theorem is_contract_cache_eviction :
    c6Addr 0 ∈ c6Queries ∧
    (is_contract_calls c6Net (c6Queries ++ [c6Addr 0])).1.getLast? =
      some (c6Net (c6Addr 0), true) := by
  constructor
  · show c6Addr 0 ∈ (List.range (IS_CONTRACT_CACHE_SIZE + 1)).map c6Addr
    exact List.mem_map.mpr ⟨0, List.mem_range.mpr (Nat.succ_pos _), rfl⟩
  · have hdist := lru_calls_distinct c6Net IS_CONTRACT_CACHE_SIZE c6Queries []
      c6Queries_nodup (by simp) (by simp)
    show (lru_calls c6Net IS_CONTRACT_CACHE_SIZE []
      (c6Queries ++ [c6Addr 0])).1.getLast? = _
    rw [lru_calls_append]
    have hfind : ((lru_calls c6Net IS_CONTRACT_CACHE_SIZE [] c6Queries).2).find?
        (fun e => e.1 == c6Addr 0) = none := by
      rw [hdist.2]
      exact find?_eq_none_of_not_mem_keys c6Addr_zero_not_in_final_keys
    have ht2 : ∀ S : List (String × Bool),
        S.find? (fun e => e.1 == c6Addr 0) = none →
        (lru_calls c6Net IS_CONTRACT_CACHE_SIZE S [c6Addr 0]).1 =
          [(c6Net (c6Addr 0), true)] := by
      intro S hf
      simp only [lru_calls, lru_call, hf]
    rw [ht2 _ hfind, List.getLast?_concat]

/-- As long as the cache never needs to evict, the LRU-memoized calls
behave exactly like unbounded memoization. -/
theorem lru_calls_memo (net : String → Bool) (m : Nat) :
    ∀ (qs : List String) (cache : List (String × Bool)) (seen : List String),
      (∀ p ∈ cache, p.2 = net p.1) →
      (cache.map Prod.fst).Nodup →
      (∀ x : String, x ∈ cache.map Prod.fst ↔ x ∈ seen) →
      ((cache.map Prod.fst).toFinset ∪ qs.toFinset).card ≤ m →
      (lru_calls net m cache qs).1 = memo_ref net seen qs := by
  intro qs
  induction qs with
  | nil =>
    intro cache seen _ _ _ _
    rfl
  | cons a rest ih =>
    intro cache seen hval hnodup hiff hcard
    cases hfind : cache.find? (fun e => e.1 == a) with
    | some e =>
      have he_mem : e ∈ cache := List.mem_of_find?_eq_some hfind
      have hbeq : (e.1 == a) = true := by
        have h2 := List.find?_some hfind
        simpa using h2
      have he_key : e.1 = a := eq_of_beq hbeq
      have ha_keys : a ∈ cache.map Prod.fst :=
        List.mem_map.mpr ⟨e, he_mem, he_key⟩
      have ha_seen : a ∈ seen := (hiff a).mp ha_keys
      have hkeys_erase : (cache.eraseP (fun e => e.1 == a)).map Prod.fst =
          (cache.map Prod.fst).erase a := by
        have h1 : (cache.map Prod.fst).eraseP (fun k => k == a) =
            (cache.eraseP (fun e => e.1 == a)).map Prod.fst :=
          List.eraseP_map Prod.fst cache
        rw [← h1, ← List.erase_eq_eraseP']
      simp only [lru_calls, lru_call, hfind, memo_ref]
      refine congrArg₂ List.cons ?_ ?_
      · have hc : seen.contains a = true := by
          rw [List.contains_iff_exists_mem_beq]
          exact ⟨a, ha_seen, by simp⟩
        rw [hval e he_mem, he_key, hc]
        rfl
      · refine ih ((a, e.2) :: cache.eraseP (fun e => e.1 == a)) (a :: seen)
          ?_ ?_ ?_ ?_
        · intro p hp
          rcases List.mem_cons.mp hp with h | h
          · subst h
            rw [hval e he_mem, he_key]
          · exact hval p (List.mem_of_mem_eraseP h)
        · simp only [List.map_cons, hkeys_erase]
          exact List.Nodup.cons (hnodup.not_mem_erase) (hnodup.erase a)
        · intro x
          simp only [List.map_cons, hkeys_erase, List.mem_cons]
          constructor
          · intro hx
            rcases hx with hx | hx
            · exact Or.inl hx
            · exact Or.inr ((hiff x).mp (List.mem_of_mem_erase hx))
          · intro hx
            rcases hx with hx | hx
            · exact Or.inl hx
            · by_cases hxa : x = a
              · exact Or.inl hxa
              · exact Or.inr ((hnodup.mem_erase_iff).mpr ⟨hxa, (hiff x).mpr hx⟩)
        · refine le_trans (Finset.card_le_card ?_) hcard
          intro x hx
          simp only [List.map_cons, hkeys_erase, List.toFinset_cons,
            Finset.mem_union, Finset.mem_insert, List.mem_toFinset] at hx ⊢
          rcases hx with hx | hx
          · rcases hx with hx | hx
            · exact Or.inl (hx ▸ ha_keys)
            · exact Or.inl (List.mem_of_mem_erase hx)
          · exact Or.inr (by simp [hx])
    | none =>
      have ha_keys : a ∉ cache.map Prod.fst := by
        intro hmem
        obtain ⟨e, he, hkey⟩ := List.mem_map.mp hmem
        have := List.find?_eq_none.mp hfind e he
        simp [hkey] at this
      have ha_seen : a ∉ seen := fun h => ha_keys ((hiff a).mpr h)
      have hlen : ((a, net a) :: cache).length ≤ m := by
        have h1 : cache.length = (cache.map Prod.fst).toFinset.card := by
          rw [List.toFinset_card_of_nodup hnodup, List.length_map]
        have h2 : insert a (cache.map Prod.fst).toFinset ⊆
            (cache.map Prod.fst).toFinset ∪ (a :: rest).toFinset := by
          intro x hx
          rcases Finset.mem_insert.mp hx with hx | hx
          · exact Finset.mem_union_right _ (by simp [hx])
          · exact Finset.mem_union_left _ hx
        have h3 := le_trans (Finset.card_le_card h2) hcard
        rw [Finset.card_insert_of_not_mem (by simpa using ha_keys)] at h3
        simp only [List.length_cons]
        omega
      have htake : (((a, net a) :: cache).take m) = (a, net a) :: cache :=
        List.take_of_length_le hlen
      simp only [lru_calls, lru_call, hfind, memo_ref]
      rw [htake]
      refine congrArg₂ List.cons ?_ ?_
      · have hc : seen.contains a = false := by
          by_contra hcon
          rw [Bool.not_eq_false, List.contains_iff_exists_mem_beq] at hcon
          obtain ⟨b, hb, hab⟩ := hcon
          exact ha_seen ((eq_of_beq hab) ▸ hb)
        rw [hc]
        rfl
      · refine ih ((a, net a) :: cache) (a :: seen) ?_ ?_ ?_ ?_
        · intro p hp
          rcases List.mem_cons.mp hp with h | h
          · subst h
            rfl
          · exact hval p h
        · simp only [List.map_cons]
          exact List.Nodup.cons ha_keys hnodup
        · intro x
          simp only [List.map_cons, List.mem_cons]
          constructor
          · intro hx
            rcases hx with hx | hx
            · exact Or.inl hx
            · exact Or.inr ((hiff x).mp hx)
          · intro hx
            rcases hx with hx | hx
            · exact Or.inl hx
            · exact Or.inr ((hiff x).mpr hx)
        · refine le_trans (le_of_eq (congrArg Finset.card ?_)) hcard
          simp only [List.map_cons, List.toFinset_cons]
          rw [Finset.insert_union, Finset.union_insert]

/-- The trace of unbounded memoization, per position: the result is the
underlying classification, and a lookup happens only at an address's
first occurrence. -/
theorem memo_ref_getElem (net : String → Bool) :
    ∀ (qs seen : List String) (j : Nat) (hj : j < qs.length),
      (memo_ref net seen qs)[j]? =
        some (net qs[j], !decide (qs[j] ∈ seen ∨ qs[j] ∈ qs.take j)) := by
  intro qs
  induction qs with
  | nil =>
    intro seen j hj
    simp at hj
  | cons a rest ih =>
    intro seen j hj
    cases j with
    | zero =>
      simp only [memo_ref, List.getElem?_cons_zero, List.getElem_cons_zero,
        List.take_zero, List.not_mem_nil, or_false]
      show some (net a, !List.elem a seen) = some (net a, !decide (a ∈ seen))
      rw [List.elem_eq_mem]
    | succ j =>
      have hj2 : j < rest.length := by simpa using hj
      simp only [memo_ref, List.getElem?_cons_succ, List.getElem_cons_succ,
        List.take_succ_cons]
      rw [ih (a :: seen) j hj2]
      congr 2
      congr 1
      rw [decide_eq_decide]
      constructor
      · intro hx
        rcases hx with hx | hx
        · rcases List.mem_cons.mp hx with hx | hx
          · exact Or.inr (by simp [hx])
          · exact Or.inl hx
        · exact Or.inr (by simp [hx])
      · intro hx
        rcases hx with hx | hx
        · exact Or.inl (by simp [hx])
        · rcases List.mem_cons.mp hx with hx | hx
          · exact Or.inl (by simp [hx])
          · exact Or.inr hx

/-- C6 (amended): provided at most 2048 distinct addresses (the
`lru_cache` capacity) are queried during the session, every call to
`is_contract` after the first call with the same address returns the
cached classification without performing a new network lookup, and the
cached value is never invalidated or recomputed. -/
theorem is_contract_memoized (net : String → Bool) (qs : List String)
    (hcard : qs.toFinset.card ≤ IS_CONTRACT_CACHE_SIZE)
    (j : Nat) (hj : j < qs.length) (hrep : qs[j] ∈ qs.take j) :
    (is_contract_calls net qs).1[j]? = some (net qs[j], false) := by
  have heq := lru_calls_memo net IS_CONTRACT_CACHE_SIZE qs [] []
    (by simp) (by simp) (by simp) (by simpa using hcard)
  show (lru_calls net IS_CONTRACT_CACHE_SIZE [] qs).1[j]? = _
  rw [heq, memo_ref_getElem net qs [] j hj]
  simp [hrep]

/-- Witness for the amended C6: the third call repeats the first address
and is served from the cache. -/
theorem is_contract_memoized_witness :
    (["0xa", "0xb", "0xa"] : List String).toFinset.card ≤
      IS_CONTRACT_CACHE_SIZE ∧
    (2 : Nat) < (["0xa", "0xb", "0xa"] : List String).length ∧
    (["0xa", "0xb", "0xa"] : List String)[2] ∈
      (["0xa", "0xb", "0xa"] : List String).take 2 ∧
    (is_contract_calls (fun _ => true) ["0xa", "0xb", "0xa"]).1[2]? =
      some (true, false) :=
  ⟨by decide, by decide, by decide,
   is_contract_memoized (fun _ => true) ["0xa", "0xb", "0xa"] (by decide) 2
     (by decide) (by decide)⟩
